import Mathlib

/-!
# Verification of the go-ai-commit-msg streaming client and suggestion pipeline

Shallow embedding of the repository's core logic:

* `cmd/lint_suggestions.go`: `parseSuggestions`, `filterSuggestionsBySeverity`,
  the max-suggestions truncation, and the consumer loop of `runLintSuggestions`.
* `pkg/ollama` client: `executeWithRetry`, `streamChat`, `Chat`.

Go strings are modelled as `List Char`.  Go's `unicode.IsSpace` (used by
`strings.TrimSpace`) and RE2's `\s` class (used by the regular expressions)
are modelled exactly by their character tables.  `strings.ToUpper` is
modelled on the ASCII range (all inputs of interest in this program are
ASCII; non-ASCII case mappings are not modelled and all characters at or
above U+0080 are left unchanged).
-/

set_option maxRecDepth 16384

/-- Character table of Go's `unicode.IsSpace` (the Unicode White_Space
property), used by `strings.TrimSpace`. -/
def isGoSpace (c : Char) : Bool :=
  c.toNat = 0x20 || c.toNat = 0x9 || c.toNat = 0xA || c.toNat = 0xB ||
  c.toNat = 0xC || c.toNat = 0xD || c.toNat = 0x85 || c.toNat = 0xA0 ||
  c.toNat = 0x1680 || (0x2000 ≤ c.toNat && c.toNat ≤ 0x200A) ||
  c.toNat = 0x2028 || c.toNat = 0x2029 || c.toNat = 0x202F ||
  c.toNat = 0x205F || c.toNat = 0x3000

/-- RE2's Perl class `\s` = `[\t\n\f\r ]`, used by the Go regexps
`^(\d+)\.\s*\[([^\]]+)\]\s*(.+)`, `^\d+\.\s*` and
`\[(?:HIGH|MEDIUM|LOW)\]\s*`. -/
def isRegexSpace (c : Char) : Bool :=
  c.toNat = 0x9 || c.toNat = 0xA || c.toNat = 0xC || c.toNat = 0xD ||
  c.toNat = 0x20

/-- RE2's `\d` = `[0-9]`. -/
def asciiDigit (c : Char) : Bool :=
  '0' ≤ c && c ≤ '9'

/-- Go `strings.ToUpper`, restricted to the ASCII range (`Char.toUpper`
maps `a`-`z` to `A`-`Z` and leaves everything else unchanged). -/
def goToUpper (s : List Char) : List Char :=
  s.map Char.toUpper

/-- Removal of trailing Go whitespace (the right half of
`strings.TrimSpace`), written by structural recursion. -/
def trimRight : List Char → List Char
  | [] => []
  | c :: rest =>
    let r := trimRight rest
    if r = [] && isGoSpace c then [] else c :: r

/-- Go `strings.TrimSpace`: remove leading and trailing Unicode
whitespace. -/
def trimSpace (s : List Char) : List Char :=
  trimRight (s.dropWhile isGoSpace)

/-- Go `strings.Split(s, "\n")`: always returns one part more than the
number of newlines; `Split("", "\n") = [""]`. -/
def splitLines : List Char → List (List Char)
  | [] => [[]]
  | c :: rest =>
    if c = '\n' then [] :: splitLines rest
    else
      match splitLines rest with
      | [] => [[c]]
      | l :: ls => (c :: l) :: ls

/-- Join lines with `'\n'` separators (inverse of `splitLines` on
newline-free lines); used to state line-level invariance properties. -/
def joinLines : List (List Char) → List Char
  | [] => []
  | [l] => l
  | l :: ls => l ++ '\n' :: joinLines ls

/-- Go `strings.Contains sub` scanning from the left. -/
def containsSub (sub : List Char) : List Char → Bool
  | [] => sub.isEmpty
  | c :: rest => sub.isPrefixOf (c :: rest) || containsSub sub rest

/-- Value of `strconv.Atoi` on a run of decimal digits (the only shape the
primary regex can produce; the 64-bit overflow clamp is not modelled as no
claim depends on the `Number` field's value on overflow). -/
def natOfDigits (ds : List Char) : Nat :=
  ds.foldl (fun n c => n * 10 + (c.toNat - '0'.toNat)) 0

/-- One parsed record of `cmd/lint_suggestions.go` (`type Suggestion`). -/
structure Suggestion where
  severity : List Char
  title : List Char
  description : List Char
  number : Nat
deriving DecidableEq, Repr

/-- Match of the primary regex `^(\d+)\.\s*\[([^\]]+)\]\s*(.+)` against a
line, returning the three capture groups (digits, severity label, title
text).  `[^\]]+` is a greedy run of non-`]` characters, so it captures up
to the first `]`; when everything after the `]` is `\s` characters, the
engine backtracks `\s*` by one character so that `.+` captures the final
whitespace character. -/
def primaryMatch (line : List Char) : Option (List Char × List Char × List Char) :=
  let digits := line.takeWhile asciiDigit
  let rest1 := line.dropWhile asciiDigit
  if digits = [] then none
  else
    match rest1 with
    | '.' :: rest2 =>
      match rest2.dropWhile isRegexSpace with
      | '[' :: rest4 =>
        let sev := rest4.takeWhile (fun c => c ≠ ']')
        if sev = [] then none
        else
          match rest4.dropWhile (fun c => c ≠ ']') with
          | ']' :: rest6 =>
            let rem := rest6.dropWhile isRegexSpace
            if rem ≠ [] then some (digits, sev, rem)
            else
              match (rest6.takeWhile isRegexSpace).getLast? with
              | some c => some (digits, sev, [c])
              | none => none
          | _ => none
      | _ => none
    | _ => none

/-- Go `if desc == "" { desc = line } else { desc += " " + line }`. -/
def descAppend (d line : List Char) : List Char :=
  if d = [] then line else d ++ ' ' :: line

/-- The primary loop of `parseSuggestions`: each line is trimmed, blank
lines are skipped, a primary-regex match flushes the suggestion in
progress and starts a new one, and any other line extends the in-progress
suggestion's description. -/
def primaryLoop : List (List Char) → Option Suggestion → List Suggestion
  | [], cur => match cur with | some s => [s] | none => []
  | l :: rest, cur =>
    let line := trimSpace l
    if line = [] then primaryLoop rest cur
    else
      match primaryMatch line with
      | some (digits, sev, rawTitle) =>
        let flushed := match cur with | some s => [s] | none => []
        flushed ++ primaryLoop rest
          (some ⟨trimSpace (goToUpper sev), trimSpace rawTitle, [], natOfDigits digits⟩)
      | none =>
        match cur with
        | some s =>
          primaryLoop rest (some { s with description := descAppend s.description line })
        | none => primaryLoop rest none

/-- `regexp.MustCompile("^\\d+\\.\\s*").ReplaceAllString(line, "")`: the
anchored pattern can match only at the start, so at most one replacement
happens. -/
def stripLeadingNum (l : List Char) : List Char :=
  if l.takeWhile asciiDigit = [] then l
  else
    match l.dropWhile asciiDigit with
    | '.' :: rest => rest.dropWhile isRegexSpace
    | _ => l

theorem dropWhile_length_le (p : Char → Bool) (l : List Char) :
    (l.dropWhile p).length ≤ l.length := by
  induction l with
  | nil => simp
  | cons c rest ih =>
    rw [List.dropWhile_cons]
    by_cases h : p c = true
    · simp only [h, if_true]
      exact Nat.le_trans ih (by simp)
    · simp [h]

/-- Left-to-right scanner for
`regexp.MustCompile("\\[(?:HIGH|MEDIUM|LOW)\\]\\s*").ReplaceAllString
(line, "")`.  The flag records that a tag was just removed, so that the
`\s*` of the match still greedily consumes the following whitespace
(consecutive spaces after a removed tag are dropped; a tag is recognised
at any position). -/
def removeSevTagsAux : Bool → List Char → List Char
  | _, '[' :: 'H' :: 'I' :: 'G' :: 'H' :: ']' :: rest => removeSevTagsAux true rest
  | _, '[' :: 'M' :: 'E' :: 'D' :: 'I' :: 'U' :: 'M' :: ']' :: rest =>
      removeSevTagsAux true rest
  | _, '[' :: 'L' :: 'O' :: 'W' :: ']' :: rest => removeSevTagsAux true rest
  | afterTag, c :: rest =>
      if afterTag && isRegexSpace c then removeSevTagsAux true rest
      else c :: removeSevTagsAux false rest
  | _, [] => []

/-- `regexp.MustCompile("\\[(?:HIGH|MEDIUM|LOW)\\]\\s*").ReplaceAllString
(line, "")`: remove every (case-sensitive) bracketed severity tag together
with the whitespace that follows it, scanning left to right over
non-overlapping matches. -/
def removeSevTags (l : List Char) : List Char :=
  removeSevTagsAux false l

/-- Severity inferred by the fallback pass: `MEDIUM` unless the uppercased
line contains `[HIGH]` (checked first) or `[LOW]`. -/
def fallbackSeverity (line : List Char) : List Char :=
  if containsSub ('[' :: 'H' :: 'I' :: 'G' :: 'H' :: [']']) (goToUpper line) then
    ['H', 'I', 'G', 'H']
  else if containsSub ('[' :: 'L' :: 'O' :: 'W' :: [']']) (goToUpper line) then
    ['L', 'O', 'W']
  else
    ['M', 'E', 'D', 'I', 'U', 'M']

/-- The fallback pass of `parseSuggestions`: one Suggestion (with empty
description and sequential number) per non-blank line that is still
non-empty after stripping a leading ordinal and the bracketed severity
tags. -/
def fallbackLoop : List (List Char) → Nat → List Suggestion
  | [], _ => []
  | l :: rest, n =>
    let line := trimSpace l
    if line = [] then fallbackLoop rest n
    else
      let sev := fallbackSeverity line
      let cleaned := removeSevTags (stripLeadingNum line)
      if cleaned = [] then fallbackLoop rest n
      else ⟨sev, cleaned, [], n⟩ :: fallbackLoop rest (n + 1)

/-- `parseSuggestions` from `cmd/lint_suggestions.go`: primary structured
pass, and the line-by-line fallback when the primary pass yields
nothing. -/
def parseSuggestions (response : List Char) : List Suggestion :=
  let primary := primaryLoop (splitLines response) none
  if primary = [] then fallbackLoop (splitLines response) 1 else primary

/-- `filterSuggestionsBySeverity` from `cmd/lint_suggestions.go`: the
literal string `"all"` (compared case-sensitively) passes everything
through; otherwise keep the suggestions whose severity equals the
uppercased filter. -/
def filterSuggestionsBySeverity (suggestions : List Suggestion)
    (severityFilter : List Char) : List Suggestion :=
  if severityFilter = ['a', 'l', 'l'] then suggestions
  else suggestions.filter (fun s => s.severity = goToUpper severityFilter)

/-- The truncation step of `runLintSuggestions`:
`if len(filteredSuggestions) > maxSuggestions { filteredSuggestions =
filteredSuggestions[:maxSuggestions] }`.  `none` models the slice-bounds
panic Go raises for a negative index. -/
def limitSuggestions (suggestions : List Suggestion) (maxSuggestions : Int) :
    Option (List Suggestion) :=
  if (suggestions.length : Int) > maxSuggestions then
    if 0 ≤ maxSuggestions then some (suggestions.take maxSuggestions.toNat)
    else none
  else some suggestions

/-! ## The ollama streaming client (`pkg/ollama`) -/

/-- Outcome of one `c.httpClient.Do(req)` call: either a transport error
(`err != nil`) or an HTTP response with its status code and body text. -/
inductive AttemptOutcome where
  | connErr (msg : List Char)
  | response (status : Nat) (body : List Char)
deriving DecidableEq, Repr

/-- The fields of the `*http.Response` that `streamChat` reads. -/
structure HttpResponse where
  status : Nat
  body : List Char
deriving DecidableEq, Repr

/-- Result of `executeWithRetry`: the response and error it returns, plus
the number of `Do` calls made and the backoff sleeps (in seconds) it
performed, in order. -/
structure RetryResult where
  response : Option HttpResponse
  error : Option (List Char)
  attemptsUsed : Nat
  sleeps : List Nat
deriving DecidableEq, Repr

/-- The loop of `executeWithRetry`: `fuel` is the number of iterations
left (`maxRetries - i`), `i` the current attempt index, `lastErr` the Go
`lastErr` variable.  A response with status below 500 is returned at
once; any other outcome stores the transport error (which is nil for a
5xx response, since `lastErr = err` records only the `Do` error) and
retries after sleeping `2^i` seconds, except on the last attempt, which
breaks without sleeping. -/
def retryGo (attempts : Nat → AttemptOutcome) :
    Nat → Nat → Option (List Char) → List Nat → RetryResult
  | 0, i, lastErr, sleeps => ⟨none, lastErr, i, sleeps⟩
  | fuel + 1, i, _, sleeps =>
    match attempts i with
    | .response st body =>
      if st < 500 then ⟨some ⟨st, body⟩, none, i + 1, sleeps⟩
      else if fuel = 0 then ⟨none, none, i + 1, sleeps⟩
      else retryGo attempts fuel (i + 1) none (sleeps ++ [2 ^ i])
    | .connErr m =>
      if fuel = 0 then ⟨none, some m, i + 1, sleeps⟩
      else retryGo attempts fuel (i + 1) (some m) (sleeps ++ [2 ^ i])

/-- `executeWithRetry(req, maxRetries)` over a given sequence of `Do`
outcomes. -/
def executeWithRetry (attempts : Nat → AttemptOutcome) (maxRetries : Nat) :
    RetryResult :=
  retryGo attempts maxRetries 0 none []

/-- One decoded stream line (`ChatResponse`): the fields the core logic
reads are the message text fragment and the completion flag. -/
structure ChatUnit where
  content : List Char
  done : Bool
deriving DecidableEq, Repr

/-- Terminal failures of `streamChat`, tagged with the data each error
message carries. -/
inductive StreamError where
  | requestFailed (connErr : List Char)
  | httpStatus (status : Nat) (body : List Char)
  | decodeFailed (line : List Char)
deriving DecidableEq, Repr

/-- The scanner loop of `streamChat`: blank lines are skipped, a line
that fails to decode is a terminal error, every decoded unit is sent on
the response channel, and the loop breaks after sending a unit with
`done = true`.  Returns the units sent in order and the error, if any.
`json.Unmarshal` is abstracted as the `decode` parameter. -/
def scanDeliver (decode : List Char → Option ChatUnit) :
    List (List Char) → List ChatUnit × Option StreamError
  | [] => ([], none)
  | l :: rest =>
    if l = [] then scanDeliver decode rest
    else
      match decode l with
      | none => ([], some (.decodeFailed l))
      | some u =>
        if u.done then ([u], none)
        else
          let r := scanDeliver decode rest
          (u :: r.1, r.2)

/-- One run of `streamChat`: the units delivered on the response channel,
the error returned (sent on the error channel by `Chat`), whether the
code panicked, and how many `Do` attempts were made. -/
structure StreamRun where
  delivered : List ChatUnit
  error : Option StreamError
  panicked : Bool
  attemptsUsed : Nat
deriving DecidableEq, Repr

/-- `streamChat`: execute the request with up to three attempts, fail on
a transport error or a non-200 status, then decode the body lines and
deliver units until one with `done = true`.  `panicked` models the
nil-pointer dereference that occurs when `executeWithRetry` returns
`(nil, nil)` — all attempts exhausted by 5xx responses — after which the
Go code evaluates `resp.Body` and `resp.StatusCode` on a nil
`*http.Response`. -/
def streamChat (attempts : Nat → AttemptOutcome)
    (decode : List Char → Option ChatUnit) (wire : List (List Char)) :
    StreamRun :=
  let r := executeWithRetry attempts 3
  match r.error, r.response with
  | some e, _ => ⟨[], some (.requestFailed e), false, r.attemptsUsed⟩
  | none, none => ⟨[], none, true, r.attemptsUsed⟩
  | none, some resp =>
    if resp.status ≠ 200 then
      ⟨[], some (.httpStatus resp.status resp.body), false, r.attemptsUsed⟩
    else
      let s := scanDeliver decode wire
      ⟨s.1, s.2, false, r.attemptsUsed⟩

/-- Events observable on the two channels returned by `Chat`, in the
order the producer goroutine performs them (`defer close(respChan)` runs
after `defer close(errChan)`). -/
inductive ChatEvent where
  | unitSent (u : ChatUnit)
  | errSent (e : StreamError)
  | errChanClosed
  | respChanClosed
deriving DecidableEq, Repr

def isErrSentEv : ChatEvent → Bool
  | .errSent _ => true
  | _ => false

def isUnitSentEv : ChatEvent → Bool
  | .unitSent _ => true
  | _ => false

/-- The producer-side event sequence of one `Chat` invocation: every
delivered unit in order, then the single error send if `streamChat`
returned a non-nil error, then the deferred closes (error channel first).
When `streamChat` panics, Go still runs the deferred closes while
unwinding, and no error is sent. -/
def chatTrace (attempts : Nat → AttemptOutcome)
    (decode : List Char → Option ChatUnit) (wire : List (List Char)) :
    List ChatEvent :=
  let run := streamChat attempts decode wire
  run.delivered.map ChatEvent.unitSent
    ++ (match run.error with
        | some e => [ChatEvent.errSent e]
        | none => [])
    ++ [ChatEvent.errChanClosed, ChatEvent.respChanClosed]

/-- `true` when no `unitSent` event follows an `errSent` event. -/
def noUnitAfterError : List ChatEvent → Bool
  | [] => true
  | .errSent _ :: rest => rest.all (fun ev => !isUnitSentEv ev)
  | _ :: rest => noUnitAfterError rest

/-- The aggregation done by the consumer loop in `runLintSuggestions`:
`responseBuilder.WriteString(resp.Message.Content)` for each unit
received from the response channel. -/
def aggregateContents (units : List ChatUnit) : List Char :=
  units.foldl (fun acc u => acc ++ u.content) []

/-- The consumer `select` loop of `runLintSuggestions`, in the state
where the producer goroutine has already finished: all still-unreceived
units sit buffered in `respChan`, `errPending` is the value buffered in
`errChan` if an error was sent, and both channels are closed.  Both
`select` cases are then ready at every iteration — a receive on a closed
channel yields the zero value immediately — and Go picks one of the
ready cases at random; `sched` says, per iteration, whether the
`errChan` case is picked (an exhausted `sched` means the `respChan` case
is picked).  Picking the `errChan` case ends the loop at once via
`goto StreamComplete`, with `streamErr` set to the received value (nil
when the channel is closed and empty).  Returns the accumulated text and
the final `streamErr`. -/
def consumerLoop (errPending : Option StreamError) :
    List ChatUnit → List Bool → List Char → List Char × Option StreamError
  | pending, sched, acc =>
    if sched.headD false then (acc, errPending)
    else
      match pending with
      | [] => (acc, none)
      | u :: rest => consumerLoop errPending rest sched.tail (acc ++ u.content)

/-! ## Concrete evaluations: Scenario A and the counterexamples -/

/-- C8: `parseSuggestions` on the Scenario A input returns exactly two
Suggestions, in order: HIGH / "Add error handling" / "The divide function
should check zero.", then MEDIUM / "Use range loop" / "Replace the
loop."; the continuation lines are space-joined into the descriptions and
the blank line is not a record separator. -/
theorem parseSuggestions_scenario_A :
    parseSuggestions ("1. [HIGH] Add error handling\n   The divide function should check zero.\n\n2. [MEDIUM] Use range loop\n   Replace the loop.".toList) =
      [⟨"HIGH".toList, "Add error handling".toList,
        "The divide function should check zero.".toList, 1⟩,
       ⟨"MEDIUM".toList, "Use range loop".toList,
        "Replace the loop.".toList, 2⟩] := by
  decide

/-- Counterexample to C1: the input `"[HIGH]"` is non-empty, has a
non-blank line, and no line matches the primary pattern, yet
`parseSuggestions` returns the empty list — the fallback drops the line
because stripping the severity tag leaves nothing. -/
theorem parseSuggestions_bracket_only_empty :
    "[HIGH]".toList ≠ [] ∧
    (∃ l ∈ splitLines ("[HIGH]".toList), trimSpace l ≠ []) ∧
    (∀ l ∈ splitLines ("[HIGH]".toList), primaryMatch (trimSpace l) = none) ∧
    parseSuggestions ("[HIGH]".toList) = [] := by
  decide

/-- Counterexample to C5: `filterSuggestionsBySeverity` compares the
filter against the literal `"all"` case-sensitively, so the casing
`"ALL"` is not a pass-through: it filters for the severity `"ALL"` and
returns the empty list. -/
theorem filterSuggestions_ALL_not_passthrough :
    filterSuggestionsBySeverity [⟨"HIGH".toList, ['t'], [], 1⟩] ("ALL".toList) = [] ∧
    filterSuggestionsBySeverity [⟨"HIGH".toList, ['t'], [], 1⟩] ("ALL".toList) ≠
      [⟨"HIGH".toList, ['t'], [], 1⟩] := by
  decide

/-- Counterexample to C6: `maxCount = 0` is not "unlimited" — the
truncation `filteredSuggestions[:0]` applies whenever the list is longer
than `maxCount`, so a one-element list is truncated to nothing. -/
theorem limitSuggestions_zero_truncates :
    limitSuggestions [⟨"HIGH".toList, ['t'], [], 1⟩] 0 = some [] ∧
    some [⟨"HIGH".toList, ['t'], [], 1⟩] ≠ (some [] : Option (List Suggestion)) := by
  decide

/-- Counterexample to C7: on the structured line `"1. [ ] x"` the
bracketed label is a single space, and
`strings.TrimSpace(strings.ToUpper(" "))` is the empty string, so the
produced Suggestion has an empty severity. -/
theorem parseSuggestions_blank_severity :
    parseSuggestions ("1. [ ] x".toList) = [⟨[], ['x'], [], 1⟩] := by
  decide

/-- Counterexample to C10: in fallback mode the title can end with
whitespace — on `"x [HIGH]"` the severity tag is removed from the end of
the line and the title keeps the space before it. -/
theorem parseSuggestions_fallback_trailing_space :
    parseSuggestions ("x [HIGH]".toList) =
      [⟨"HIGH".toList, ['x', ' '], [], 1⟩] ∧
    trimSpace ['x', ' '] ≠ ['x', ' '] := by
  decide

/-- C3 (code bug): when every attempt returns a 5xx response with a nil
transport error, `executeWithRetry` returns `(nil, nil)` — `lastErr`
only ever stores the `Do` error, which is nil for a 5xx — and
`streamChat` then dereferences the nil `*http.Response` instead of
returning an error carrying the status code and body. -/
theorem streamChat_all_5xx_panics :
    executeWithRetry (fun _ => .response 500 "server error".toList) 3 =
      ⟨none, none, 3, [1, 2]⟩ ∧
    streamChat (fun _ => .response 500 "server error".toList) (fun _ => none) [] =
      ⟨[], none, true, 3⟩ := by
  decide

/-- C2 (code bug): once the producer goroutine has finished and closed
both channels, a receive on the closed error channel is immediately
ready and yields nil; if the consumer `select` picks that case while a
unit is still buffered in the response channel, the loop exits and the
buffered unit's text is lost, so the accumulated text is not the
concatenation of the delivered fragments. -/
theorem chat_consumer_drops_buffered_unit :
    (streamChat (fun _ => .response 200 []) (fun _ => some ⟨['x'], true⟩)
        [['a']]).delivered = [⟨['x'], true⟩] ∧
    (streamChat (fun _ => .response 200 []) (fun _ => some ⟨['x'], true⟩)
        [['a']]).error = none ∧
    consumerLoop none [⟨['x'], true⟩] [true] [] = ([], none) ∧
    aggregateContents [⟨['x'], true⟩] = ['x'] := by
  decide

/-- Counterexample to C4: even when every attempt fails, only two
backoff sleeps ever happen — 1s and 2s — because the loop breaks before
sleeping on the last of the three attempts, so the claimed third delay
of 4s never occurs. -/
theorem executeWithRetry_sleeps_max_two :
    (executeWithRetry (fun _ => .connErr "boom".toList) 3).attemptsUsed = 3 ∧
    (executeWithRetry (fun _ => .connErr "boom".toList) 3).sleeps = [1, 2] ∧
    (executeWithRetry (fun _ => .connErr "boom".toList) 3).sleeps ≠ [1, 2, 4] := by
  decide

/-! ## Filtering and truncation (C5, C6) -/

/-- C5 (amended): filtering is a pure subset operation, but the
pass-through filter is the exact lowercase string `"all"`; any other
filter keeps, in original order, exactly the suggestions whose severity
equals the uppercased filter string. -/
theorem filterSuggestions_characterization (S : List Suggestion) (t : List Char)
    (ht : t ≠ ['a', 'l', 'l']) :
    filterSuggestionsBySeverity S ['a', 'l', 'l'] = S ∧
    List.Sublist (filterSuggestionsBySeverity S t) S ∧
    (∀ s ∈ filterSuggestionsBySeverity S t, s.severity = goToUpper t) ∧
    (∀ s ∈ S, s.severity = goToUpper t → s ∈ filterSuggestionsBySeverity S t) := by
  refine ⟨by simp [filterSuggestionsBySeverity], ?_, ?_, ?_⟩
  · simp only [filterSuggestionsBySeverity, if_neg ht]
    exact List.filter_sublist S
  · intro s hs
    simp only [filterSuggestionsBySeverity, if_neg ht, List.mem_filter,
      decide_eq_true_eq] at hs
    exact hs.2
  · intro s hs hsev
    simp only [filterSuggestionsBySeverity, if_neg ht, List.mem_filter,
      decide_eq_true_eq]
    exact ⟨hs, hsev⟩

/-- Witness for `filterSuggestions_characterization`: Scenario D — filter
[HIGH, MEDIUM, HIGH] by "high". -/
theorem filterSuggestions_characterization_witness :
    filterSuggestionsBySeverity
        [⟨"HIGH".toList, ['a'], [], 1⟩, ⟨"MEDIUM".toList, ['b'], [], 2⟩,
         ⟨"HIGH".toList, ['c'], [], 3⟩] ['a', 'l', 'l'] =
      [⟨"HIGH".toList, ['a'], [], 1⟩, ⟨"MEDIUM".toList, ['b'], [], 2⟩,
       ⟨"HIGH".toList, ['c'], [], 3⟩] ∧
    (∀ s ∈ filterSuggestionsBySeverity
        [⟨"HIGH".toList, ['a'], [], 1⟩, ⟨"MEDIUM".toList, ['b'], [], 2⟩,
         ⟨"HIGH".toList, ['c'], [], 3⟩] ("high".toList),
      s.severity = goToUpper ("high".toList)) := by
  have h := filterSuggestions_characterization
    [⟨"HIGH".toList, ['a'], [], 1⟩, ⟨"MEDIUM".toList, ['b'], [], 2⟩,
     ⟨"HIGH".toList, ['c'], [], 3⟩] ("high".toList) (by decide)
  exact ⟨h.1, h.2.2.1⟩

/-- C6 (amended): the truncation keeps the first `maxCount` suggestions
when `0 ≤ maxCount < len` (so `maxCount = 0` keeps nothing), leaves the
list unchanged when `maxCount ≥ len`, and panics (slice bounds out of
range) when `maxCount` is negative. -/
theorem limitSuggestions_characterization (S : List Suggestion) (m : Int) :
    (0 ≤ m → m < (S.length : Int) → limitSuggestions S m = some (S.take m.toNat)) ∧
    ((S.length : Int) ≤ m → limitSuggestions S m = some S) ∧
    (m < 0 → limitSuggestions S m = none) := by
  refine ⟨fun h0 hlt => ?_, fun hle => ?_, fun hneg => ?_⟩
  · simp only [limitSuggestions]
    rw [if_pos (by omega), if_pos h0]
  · simp only [limitSuggestions]
    rw [if_neg (by omega)]
  · simp only [limitSuggestions]
    rw [if_pos (by omega), if_neg (by omega)]

/-- Witness for `limitSuggestions_characterization` at a two-element
list with `maxCount` 1, 5 and -1. -/
theorem limitSuggestions_characterization_witness :
    limitSuggestions [⟨"HIGH".toList, ['a'], [], 1⟩, ⟨"LOW".toList, ['b'], [], 2⟩] 1 =
      some [⟨"HIGH".toList, ['a'], [], 1⟩] ∧
    limitSuggestions [⟨"HIGH".toList, ['a'], [], 1⟩, ⟨"LOW".toList, ['b'], [], 2⟩] 5 =
      some [⟨"HIGH".toList, ['a'], [], 1⟩, ⟨"LOW".toList, ['b'], [], 2⟩] ∧
    limitSuggestions [⟨"HIGH".toList, ['a'], [], 1⟩, ⟨"LOW".toList, ['b'], [], 2⟩] (-1) =
      none := by
  have h := limitSuggestions_characterization
    [⟨"HIGH".toList, ['a'], [], 1⟩, ⟨"LOW".toList, ['b'], [], 2⟩]
  exact ⟨((h 1).1 (by decide) (by decide)).trans (by decide),
    (h 5).2.1 (by decide), (h (-1)).2.2 (by decide)⟩

/-! ## Retry behaviour (C4) -/

/-- Unfolding of one loop iteration when it is the last one
(`i == maxRetries-1`): break without sleeping, returning `nil` and the
`Do` error of this attempt. -/
lemma retryGo_one (a : Nat → AttemptOutcome) (i : Nat) (e : Option (List Char))
    (s : List Nat) :
    retryGo a 1 i e s =
      match a i with
      | .response st b =>
        if st < 500 then ⟨some ⟨st, b⟩, none, i + 1, s⟩ else ⟨none, none, i + 1, s⟩
      | .connErr m => ⟨none, some m, i + 1, s⟩ := rfl

/-- Unfolding of one loop iteration with one more to go: a failure sleeps
`2^i` seconds and retries. -/
lemma retryGo_two (a : Nat → AttemptOutcome) (i : Nat) (e : Option (List Char))
    (s : List Nat) :
    retryGo a 2 i e s =
      match a i with
      | .response st b =>
        if st < 500 then ⟨some ⟨st, b⟩, none, i + 1, s⟩
        else retryGo a 1 (i + 1) none (s ++ [2 ^ i])
      | .connErr m => retryGo a 1 (i + 1) (some m) (s ++ [2 ^ i]) := rfl

/-- Unfolding of the first of three loop iterations. -/
lemma retryGo_three (a : Nat → AttemptOutcome) (i : Nat) (e : Option (List Char))
    (s : List Nat) :
    retryGo a 3 i e s =
      match a i with
      | .response st b =>
        if st < 500 then ⟨some ⟨st, b⟩, none, i + 1, s⟩
        else retryGo a 2 (i + 1) none (s ++ [2 ^ i])
      | .connErr m => retryGo a 2 (i + 1) (some m) (s ++ [2 ^ i]) := rfl

/-- An attempt that the retry loop treats as failed: a transport error or
a 5xx-class status. -/
def attemptFailed : AttemptOutcome → Bool
  | .connErr _ => true
  | .response st _ => 500 ≤ st

/-- The number of `Do` attempts a stream makes is decided entirely by
`executeWithRetry`, before any line of the body is read. -/
lemma streamChat_attemptsUsed (a : Nat → AttemptOutcome)
    (d : List Char → Option ChatUnit) (w : List (List Char)) :
    (streamChat a d w).attemptsUsed = (executeWithRetry a 3).attemptsUsed := by
  unfold streamChat
  rcases he : (executeWithRetry a 3).error with _ | e
  · rcases hr : (executeWithRetry a 3).response with _ | resp
    · simp [he, hr]
    · simp only [he, hr]
      split_ifs <;> rfl
  · simp [he]

/-- C4 (amended): the initial request is attempted at most 3 times; at
every attempt, a response with status below 500 ends the loop immediately
(returned with no further sleep), while a transport error or 5xx status
causes a retry unless it was the last attempt; the backoff delays before
the (at most two) retries are 1s and then 2s — a third retry, and hence
the 4s delay of the code's `1<<i` formula, never occurs; and the number
of attempts is independent of the stream contents, so no retry happens
once lines are decoded. -/
theorem executeWithRetry_behavior (attempts : Nat → AttemptOutcome)
    (decode : List Char → Option ChatUnit) :
    (executeWithRetry attempts 3).attemptsUsed ≤ 3 ∧
    ((executeWithRetry attempts 3).sleeps = [] ∨
      (executeWithRetry attempts 3).sleeps = [1] ∨
      (executeWithRetry attempts 3).sleeps = [1, 2]) ∧
    (∀ k st body, k < 3 → (∀ i, i < k → attemptFailed (attempts i) = true) →
      attempts k = .response st body → st < 500 →
      executeWithRetry attempts 3 =
        ⟨some ⟨st, body⟩, none, k + 1, List.take k [1, 2]⟩) ∧
    ((∀ i, i < 3 → attemptFailed (attempts i) = true) →
      (executeWithRetry attempts 3).response = none ∧
      (executeWithRetry attempts 3).attemptsUsed = 3 ∧
      (executeWithRetry attempts 3).sleeps = [1, 2]) ∧
    (∀ j, j < 2 → (∀ i, i ≤ j → attemptFailed (attempts i) = true) →
      j + 2 ≤ (executeWithRetry attempts 3).attemptsUsed) ∧
    (∀ wire wire', (streamChat attempts decode wire).attemptsUsed =
      (streamChat attempts decode wire').attemptsUsed) := by
  refine ⟨?_, ?_, ?_, ?_, ?_, ?_⟩
  · unfold executeWithRetry
    rcases h0 : attempts 0 with ⟨m0⟩ | ⟨st0, b0⟩ <;>
      rcases h1 : attempts 1 with ⟨m1⟩ | ⟨st1, b1⟩ <;>
        rcases h2 : attempts 2 with ⟨m2⟩ | ⟨st2, b2⟩ <;>
          simp [retryGo_one, retryGo_two, retryGo_three, h0, h1, h2] <;>
            split_ifs <;> simp
  · unfold executeWithRetry
    rcases h0 : attempts 0 with ⟨m0⟩ | ⟨st0, b0⟩ <;>
      rcases h1 : attempts 1 with ⟨m1⟩ | ⟨st1, b1⟩ <;>
        rcases h2 : attempts 2 with ⟨m2⟩ | ⟨st2, b2⟩ <;>
          simp [retryGo_one, retryGo_two, retryGo_three, h0, h1, h2] <;>
            split_ifs <;> simp
  · intro k st body hk hprev hresp hlt
    unfold executeWithRetry
    have hk3 : k = 0 ∨ k = 1 ∨ k = 2 := by omega
    rcases hk3 with rfl | rfl | rfl
    · rw [retryGo_three, hresp]
      simp [hlt]
    · have hf0 := hprev 0 (by omega)
      rcases h0 : attempts 0 with ⟨m0⟩ | ⟨st0, b0⟩
      · simp [retryGo_three, retryGo_two, h0, hresp, hlt]
      · rw [h0] at hf0
        simp only [attemptFailed, decide_eq_true_eq] at hf0
        have hn0 : ¬ st0 < 500 := by omega
        simp [retryGo_three, retryGo_two, h0, hresp, hlt, hn0]
    · have hf0 := hprev 0 (by omega)
      have hf1 := hprev 1 (by omega)
      rcases h0 : attempts 0 with ⟨m0⟩ | ⟨st0, b0⟩ <;>
        rcases h1 : attempts 1 with ⟨m1⟩ | ⟨st1, b1⟩
      · simp [retryGo_three, retryGo_two, retryGo_one, h0, h1, hresp, hlt]
      · rw [h1] at hf1
        simp only [attemptFailed, decide_eq_true_eq] at hf1
        have hn1 : ¬ st1 < 500 := by omega
        simp [retryGo_three, retryGo_two, retryGo_one, h0, h1, hresp, hlt, hn1]
      · rw [h0] at hf0
        simp only [attemptFailed, decide_eq_true_eq] at hf0
        have hn0 : ¬ st0 < 500 := by omega
        simp [retryGo_three, retryGo_two, retryGo_one, h0, h1, hresp, hlt, hn0]
      · rw [h0] at hf0
        rw [h1] at hf1
        simp only [attemptFailed, decide_eq_true_eq] at hf0 hf1
        have hn0 : ¬ st0 < 500 := by omega
        have hn1 : ¬ st1 < 500 := by omega
        simp [retryGo_three, retryGo_two, retryGo_one, h0, h1, hresp, hlt, hn0, hn1]
  · intro hall
    have hf0 := hall 0 (by omega)
    have hf1 := hall 1 (by omega)
    have hf2 := hall 2 (by omega)
    unfold executeWithRetry
    rcases h0 : attempts 0 with ⟨m0⟩ | ⟨st0, b0⟩ <;>
      rcases h1 : attempts 1 with ⟨m1⟩ | ⟨st1, b1⟩ <;>
        rcases h2 : attempts 2 with ⟨m2⟩ | ⟨st2, b2⟩ <;>
          simp only [h0, attemptFailed, decide_eq_true_eq] at hf0 <;>
            simp only [h1, attemptFailed, decide_eq_true_eq] at hf1 <;>
              simp only [h2, attemptFailed, decide_eq_true_eq] at hf2 <;>
                simp [retryGo_one, retryGo_two, retryGo_three, h0, h1, h2] <;>
                  split_ifs <;> simp_all <;> omega
  · intro j hj hfail
    have hj2 : j = 0 ∨ j = 1 := by omega
    rcases hj2 with rfl | rfl
    · have hf0 := hfail 0 (by omega)
      unfold executeWithRetry
      rcases h0 : attempts 0 with ⟨m0⟩ | ⟨st0, b0⟩ <;>
        rcases h1 : attempts 1 with ⟨m1⟩ | ⟨st1, b1⟩ <;>
          rcases h2 : attempts 2 with ⟨m2⟩ | ⟨st2, b2⟩ <;>
            simp only [h0, attemptFailed, decide_eq_true_eq] at hf0 <;>
              simp [retryGo_one, retryGo_two, retryGo_three, h0, h1, h2] <;>
                split_ifs <;> simp_all <;> omega
    · have hf0 := hfail 0 (by omega)
      have hf1 := hfail 1 (by omega)
      unfold executeWithRetry
      rcases h0 : attempts 0 with ⟨m0⟩ | ⟨st0, b0⟩ <;>
        rcases h1 : attempts 1 with ⟨m1⟩ | ⟨st1, b1⟩ <;>
          rcases h2 : attempts 2 with ⟨m2⟩ | ⟨st2, b2⟩ <;>
            simp only [h0, attemptFailed, decide_eq_true_eq] at hf0 <;>
              simp only [h1, attemptFailed, decide_eq_true_eq] at hf1 <;>
                simp [retryGo_one, retryGo_two, retryGo_three, h0, h1, h2] <;>
                  split_ifs <;> simp_all <;> omega
  · intro wire wire'
    rw [streamChat_attemptsUsed, streamChat_attemptsUsed]

/-- Witness for `executeWithRetry_behavior`: a first-attempt connection
error followed by a 404 stops after exactly two attempts with one 1s
sleep and returns the 404; three 500s exhaust the attempts with sleeps
1s, 2s and no response; and a failed first attempt forces a second. -/
theorem executeWithRetry_behavior_witness :
    executeWithRetry (fun i => if i = 0 then .connErr ['b'] else .response 404 ['n']) 3 =
      ⟨some ⟨404, ['n']⟩, none, 1 + 1, List.take 1 [1, 2]⟩ ∧
    (executeWithRetry (fun _ => .response 500 ['e']) 3).response = none ∧
    (executeWithRetry (fun _ => .response 500 ['e']) 3).attemptsUsed = 3 ∧
    (executeWithRetry (fun _ => .response 500 ['e']) 3).sleeps = [1, 2] ∧
    0 + 2 ≤ (executeWithRetry (fun _ => .connErr ['b']) 3).attemptsUsed := by
  have hD := (executeWithRetry_behavior (fun _ => .response 500 ['e'])
    (fun _ => none)).2.2.2.1 (fun i _ => by decide)
  refine ⟨?_, hD.1, hD.2.1, hD.2.2, ?_⟩
  · exact (executeWithRetry_behavior
      (fun i => if i = 0 then .connErr ['b'] else .response 404 ['n'])
      (fun _ => none)).2.2.1 1 404 ['n'] (by omega)
      (fun i hi => by
        have hi0 : i = 0 := by omega
        subst hi0
        rfl) rfl (by omega)
  · exact (executeWithRetry_behavior (fun _ => .connErr ['b'])
      (fun _ => none)).2.2.2.2.1 0 (by omega) (fun i _ => by decide)

/-! ## Fallback guarantee (C1) -/

/-- When no trimmed line matches the primary regex and no suggestion is
in progress, the primary pass produces nothing. -/
lemma primaryLoop_none_of_no_match (ls : List (List Char))
    (h : ∀ l ∈ ls, primaryMatch (trimSpace l) = none) :
    primaryLoop ls none = [] := by
  induction ls with
  | nil => rfl
  | cons l rest ih =>
    have hl := h l (List.mem_cons_self l rest)
    have hrest : ∀ x ∈ rest, primaryMatch (trimSpace x) = none :=
      fun x hx => h x (List.mem_cons_of_mem _ hx)
    by_cases ht : trimSpace l = []
    · simp [primaryLoop, ht, ih hrest]
    · simp [primaryLoop, ht, hl, ih hrest]

/-- The fallback pass emits exactly one suggestion per line that is
non-blank after trimming and non-empty after the cleanup. -/
lemma fallbackLoop_length (ls : List (List Char)) (n : Nat) :
    (fallbackLoop ls n).length =
      ls.countP (fun l => !(trimSpace l).isEmpty &&
        !(removeSevTags (stripLeadingNum (trimSpace l))).isEmpty) := by
  induction ls generalizing n with
  | nil => simp [fallbackLoop]
  | cons l rest ih =>
    by_cases h1 : trimSpace l = []
    · simp [fallbackLoop, h1, List.countP_cons, ih]
    · by_cases h2 : removeSevTags (stripLeadingNum (trimSpace l)) = []
      · simp [fallbackLoop, h1, h2, List.countP_cons, ih]
      · simp [fallbackLoop, h1, h2, List.countP_cons, ih]

/-- C1 (amended): when no line matches the primary pattern, the number
of Suggestions equals the number of lines that are non-blank after
trimming and still non-empty after stripping a leading ordinal and the
bracketed severity tags — one Suggestion per surviving line, and an
empty result exactly when no line survives (which can happen for
non-empty input, e.g. a line that is just a severity tag). -/
theorem parseSuggestions_fallback_count (r : List Char)
    (h : ∀ l ∈ splitLines r, primaryMatch (trimSpace l) = none) :
    (parseSuggestions r).length =
      (splitLines r).countP (fun l => !(trimSpace l).isEmpty &&
        !(removeSevTags (stripLeadingNum (trimSpace l))).isEmpty) := by
  unfold parseSuggestions
  rw [primaryLoop_none_of_no_match _ h]
  simp [fallbackLoop_length]

/-- Witness for `parseSuggestions_fallback_count`: two plain-text lines
with a blank line in between give two Suggestions. -/
theorem parseSuggestions_fallback_count_witness :
    (parseSuggestions ("hello\n\nworld".toList)).length =
      ((splitLines ("hello\n\nworld".toList)).countP
        (fun l => !(trimSpace l).isEmpty &&
          !(removeSevTags (stripLeadingNum (trimSpace l))).isEmpty)) :=
  parseSuggestions_fallback_count ("hello\n\nworld".toList) (by decide)

/-! ## Severity provenance (C7) -/

/-- Every fallback suggestion carries one of the three fixed labels. -/
lemma fallbackLoop_severity (ls : List (List Char)) (n : Nat) (s : Suggestion)
    (hs : s ∈ fallbackLoop ls n) :
    s.severity = "HIGH".toList ∨ s.severity = "MEDIUM".toList ∨
      s.severity = "LOW".toList := by
  induction ls generalizing n with
  | nil => simp [fallbackLoop] at hs
  | cons l rest ih =>
    by_cases h1 : trimSpace l = []
    · rw [fallbackLoop, if_pos h1] at hs
      exact ih _ hs
    · by_cases h2 : removeSevTags (stripLeadingNum (trimSpace l)) = []
      · rw [fallbackLoop, if_neg h1] at hs
        simp only [h2, if_pos rfl] at hs
        exact ih _ hs
      · rw [fallbackLoop, if_neg h1] at hs
        simp only [if_neg h2] at hs
        rcases List.mem_cons.mp hs with rfl | hmem
        · unfold fallbackSeverity
          by_cases hh : containsSub ('[' :: 'H' :: 'I' :: 'G' :: 'H' :: [']'])
              (goToUpper (trimSpace l)) = true
          · left; simp [hh]
          · by_cases hl : containsSub ('[' :: 'L' :: 'O' :: 'W' :: [']'])
                (goToUpper (trimSpace l)) = true
            · right; right; simp [hh, hl]
            · right; left; simp [hh, hl]
        · exact ih _ hmem

/-- Every suggestion emitted by the primary pass either is the incoming
in-progress suggestion or owes its severity to a primary-regex match of
one of the processed lines. -/
lemma primaryLoop_severity_origin (ls : List (List Char))
    (cur : Option Suggestion) (s : Suggestion) (hs : s ∈ primaryLoop ls cur) :
    (∃ c, cur = some c ∧ s.severity = c.severity) ∨
    (∃ l ∈ ls, ∃ d sv tt, primaryMatch (trimSpace l) = some (d, sv, tt) ∧
      s.severity = trimSpace (goToUpper sv)) := by
  induction ls generalizing cur with
  | nil =>
    rcases cur with _ | c
    · simp [primaryLoop] at hs
    · simp only [primaryLoop, List.mem_singleton] at hs
      exact .inl ⟨c, rfl, by rw [hs]⟩
  | cons l rest ih =>
    by_cases ht : trimSpace l = []
    · simp only [primaryLoop, if_pos ht] at hs
      rcases ih cur hs with h | ⟨l', hl', h⟩
      · exact .inl h
      · exact .inr ⟨l', List.mem_cons_of_mem _ hl', h⟩
    · rcases hm : primaryMatch (trimSpace l) with _ | ⟨d, sv, tt⟩
      · simp only [primaryLoop, if_neg ht, hm] at hs
        rcases cur with _ | c
        · rcases ih none hs with ⟨c, hc, _⟩ | ⟨l', hl', h⟩
          · exact absurd hc (by simp)
          · exact .inr ⟨l', List.mem_cons_of_mem _ hl', h⟩
        · rcases ih _ hs with ⟨c', hc', hsev⟩ | ⟨l', hl', h⟩
          · have hcc : c' = { c with description := descAppend c.description (trimSpace l) } := by
              injection hc' with h'; exact h'.symm
            exact .inl ⟨c, rfl, by rw [hsev, hcc]⟩
          · exact .inr ⟨l', List.mem_cons_of_mem _ hl', h⟩
      · simp only [primaryLoop, if_neg ht, hm] at hs
        rcases List.mem_append.mp hs with hfl | hrec
        · rcases cur with _ | c
          · simp at hfl
          · simp only [List.mem_singleton] at hfl
            exact .inl ⟨c, rfl, by rw [hfl]⟩
        · rcases ih _ hrec with ⟨c', hc', hsev⟩ | ⟨l', hl', h⟩
          · refine .inr ⟨l, List.mem_cons_self _ _, d, sv, tt, hm, ?_⟩
            have : c' = ⟨trimSpace (goToUpper sv), trimSpace tt, [], natOfDigits d⟩ :=
              by injection hc' with h'; exact h'.symm
            rw [hsev, this]
          · exact .inr ⟨l', List.mem_cons_of_mem _ hl', h⟩

/-- C7 (amended): every Suggestion's severity is HIGH, MEDIUM or LOW
(always the case in fallback mode), or else it is the uppercased,
whitespace-trimmed bracketed label captured by the primary pattern from
some input line — which is empty exactly when that label is all
whitespace, so the severity is not guaranteed to be non-empty. -/
theorem parseSuggestions_severity_origin (r : List Char) (s : Suggestion)
    (hs : s ∈ parseSuggestions r) :
    s.severity = "HIGH".toList ∨ s.severity = "MEDIUM".toList ∨
    s.severity = "LOW".toList ∨
    (∃ l ∈ splitLines r, ∃ d sv tt, primaryMatch (trimSpace l) = some (d, sv, tt) ∧
      s.severity = trimSpace (goToUpper sv)) := by
  unfold parseSuggestions at hs
  by_cases hp : primaryLoop (splitLines r) none = []
  · rw [if_pos hp] at hs
    rcases fallbackLoop_severity _ _ _ hs with h | h | h
    · exact .inl h
    · exact .inr (.inl h)
    · exact .inr (.inr (.inl h))
  · rw [if_neg hp] at hs
    rcases primaryLoop_severity_origin _ _ _ hs with ⟨c, hc, _⟩ | h
    · exact absurd hc (by simp)
    · exact .inr (.inr (.inr h))

/-- Witness for `parseSuggestions_severity_origin` at the structured
input "1. [high] x". -/
theorem parseSuggestions_severity_origin_witness :
    ("HIGH".toList : List Char) = "HIGH".toList ∨
    ("HIGH".toList : List Char) = "MEDIUM".toList ∨
    ("HIGH".toList : List Char) = "LOW".toList ∨
    (∃ l ∈ splitLines ("1. [high] x".toList),
      ∃ d sv tt, primaryMatch (trimSpace l) = some (d, sv, tt) ∧
        ("HIGH".toList : List Char) = trimSpace (goToUpper sv)) := by
  have h := parseSuggestions_severity_origin ("1. [high] x".toList)
    ⟨"HIGH".toList, ['x'], [], 1⟩ (by decide)
  exact h

/-! ## Channel protocol of `Chat` (C9) -/

/-- Unit-send events are never counted as error sends. -/
lemma countP_errSent_units (ds : List ChatUnit) (t : List ChatEvent) :
    ((ds.map ChatEvent.unitSent) ++ t).countP isErrSentEv = t.countP isErrSentEv := by
  induction ds with
  | nil => rfl
  | cons u rest ih =>
    simp only [List.map_cons, List.cons_append, List.countP_cons, ih]
    simp [isErrSentEv]

/-- Counting error sends directly over the units (the composed form simp
produces from `countP` over `map`) gives zero. -/
lemma countP_errSent_comp_unit (ds : List ChatUnit) :
    ds.countP (isErrSentEv ∘ ChatEvent.unitSent) = 0 := by
  induction ds with
  | nil => rfl
  | cons u rest ih => simp [List.countP_cons, ih, isErrSentEv, Function.comp]

/-- A block of unit sends never violates the no-unit-after-error shape. -/
lemma noUnitAfterError_units_append (ds : List ChatUnit) (t : List ChatEvent) :
    noUnitAfterError ((ds.map ChatEvent.unitSent) ++ t) = noUnitAfterError t := by
  induction ds with
  | nil => rfl
  | cons u rest ih => exact ih

/-- C9: per `Chat` invocation, at most one error is ever sent; an error
is sent exactly when `streamChat` fails; no unit is delivered after the
error send; and the unit channel is closed in the normal, the failing,
and even the panicking path — exactly one of error-signalled and
closed-without-error occurs. -/
theorem chatTrace_error_protocol (attempts : Nat → AttemptOutcome)
    (decode : List Char → Option ChatUnit) (wire : List (List Char)) :
    (chatTrace attempts decode wire).countP isErrSentEv ≤ 1 ∧
    noUnitAfterError (chatTrace attempts decode wire) = true ∧
    ChatEvent.errChanClosed ∈ chatTrace attempts decode wire ∧
    ChatEvent.respChanClosed ∈ chatTrace attempts decode wire ∧
    ((streamChat attempts decode wire).error.isSome →
      (chatTrace attempts decode wire).countP isErrSentEv = 1) ∧
    ((streamChat attempts decode wire).error = none →
      (chatTrace attempts decode wire).countP isErrSentEv = 0) := by
  unfold chatTrace
  rcases he : (streamChat attempts decode wire).error with _ | e <;>
    simp [he, countP_errSent_units, countP_errSent_comp_unit,
      noUnitAfterError_units_append, noUnitAfterError, isErrSentEv,
      isUnitSentEv, List.countP_cons]

/-- Witness for `chatTrace_error_protocol` at a concrete failing run (a
404 response). -/
theorem chatTrace_error_protocol_witness :
    (chatTrace (fun _ => .response 404 ['n']) (fun _ => none) []).countP
        isErrSentEv ≤ 1 ∧
    noUnitAfterError (chatTrace (fun _ => .response 404 ['n'])
        (fun _ => none) []) = true ∧
    ChatEvent.errChanClosed ∈ chatTrace (fun _ => .response 404 ['n'])
        (fun _ => none) [] ∧
    ChatEvent.respChanClosed ∈ chatTrace (fun _ => .response 404 ['n'])
        (fun _ => none) [] ∧
    ((streamChat (fun _ => .response 404 ['n']) (fun _ => none) []).error.isSome →
      (chatTrace (fun _ => .response 404 ['n']) (fun _ => none) []).countP
        isErrSentEv = 1) ∧
    ((streamChat (fun _ => .response 404 ['n']) (fun _ => none) []).error = none →
      (chatTrace (fun _ => .response 404 ['n']) (fun _ => none) []).countP
        isErrSentEv = 0) :=
  chatTrace_error_protocol (fun _ => .response 404 ['n']) (fun _ => none) []

/-! ## Whitespace facts used for the trimming claims (C10) -/

lemma dropWhile_idem (p : Char → Bool) (l : List Char) :
    (l.dropWhile p).dropWhile p = l.dropWhile p := by
  induction l with
  | nil => rfl
  | cons c rest ih =>
    cases h : p c
    · simp [List.dropWhile_cons, h]
    · simp [List.dropWhile_cons, h, ih]

lemma head_false_of_dropWhile_cons (p : Char → Bool) (c : Char) (rest : List Char)
    (h : (c :: rest).dropWhile p = c :: rest) : p c = false := by
  cases hp : p c
  · rfl
  · exfalso
    rw [List.dropWhile_cons] at h
    simp only [hp, if_true] at h
    have h1 := dropWhile_length_le p rest
    have h2 := congrArg List.length h
    simp only [List.length_cons] at h2
    omega

lemma dropWhile_append_self (p : Char → Bool) (d z : List Char)
    (hd : d.dropWhile p = d) (hne : d ≠ []) :
    (d ++ z).dropWhile p = d ++ z := by
  cases d with
  | nil => exact absurd rfl hne
  | cons c rest =>
    have hpc : p c = false := head_false_of_dropWhile_cons p c rest hd
    rw [List.cons_append, List.dropWhile_cons]
    simp [hpc]

lemma trimRight_length_le (l : List Char) : (trimRight l).length ≤ l.length := by
  induction l with
  | nil => simp [trimRight]
  | cons c rest ih =>
    simp only [trimRight]
    split
    · simp
    · simp only [List.length_cons]
      omega

lemma trimRight_idem (l : List Char) : trimRight (trimRight l) = trimRight l := by
  induction l with
  | nil => rfl
  | cons c rest ih =>
    by_cases hr : trimRight rest = []
    · by_cases hc : isGoSpace c = true
      · simp [trimRight, hr, hc]
      · simp [trimRight, hr, hc]
    · simp [trimRight, hr, ih]

lemma trimRight_append_self (xs w : List Char) (hw : trimRight w = w)
    (hne : w ≠ []) : trimRight (xs ++ w) = xs ++ w := by
  induction xs with
  | nil => simpa using hw
  | cons c xs' ih =>
    have hne2 : xs' ++ w ≠ [] := by simp [hne]
    rw [List.cons_append]
    simp [trimRight, ih, hne2]

lemma dropWhile_eq_self_of_length (p : Char → Bool) (l : List Char)
    (h : (l.dropWhile p).length = l.length) : l.dropWhile p = l := by
  cases l with
  | nil => rfl
  | cons c rest =>
    cases hp : p c
    · simp [List.dropWhile_cons, hp]
    · exfalso
      rw [List.dropWhile_cons] at h
      simp only [hp, if_true, List.length_cons] at h
      have := dropWhile_length_le p rest
      omega

/-- A string equal to its own trim is fixed by both halves of the
trimming. -/
lemma trim_eq_self_parts (d : List Char) (h : trimSpace d = d) :
    d.dropWhile isGoSpace = d ∧ trimRight d = d := by
  unfold trimSpace at h
  have l1 := dropWhile_length_le isGoSpace d
  have l2 := trimRight_length_le (d.dropWhile isGoSpace)
  have hlen := congrArg List.length h
  have hdw : d.dropWhile isGoSpace = d :=
    dropWhile_eq_self_of_length isGoSpace d (by omega)
  rw [hdw] at h
  exact ⟨hdw, h⟩

lemma dropWhile_trimRight (p : Char → Bool) (l : List Char)
    (h : l.dropWhile p = l) : (trimRight l).dropWhile p = trimRight l := by
  cases l with
  | nil => rfl
  | cons c rest =>
    have hpc : p c = false := head_false_of_dropWhile_cons p c rest h
    by_cases hb : (decide (trimRight rest = []) && isGoSpace c) = true
    · have htr : trimRight (c :: rest) = [] := by
        simp only [trimRight]
        rw [if_pos hb]
      rw [htr]
      rfl
    · have htr : trimRight (c :: rest) = c :: trimRight rest := by
        simp only [trimRight]
        rw [if_neg hb]
      rw [htr, List.dropWhile_cons, hpc]
      simp

/-- `strings.TrimSpace` is idempotent. -/
lemma trimSpace_idem (l : List Char) : trimSpace (trimSpace l) = trimSpace l := by
  show trimRight ((trimRight (l.dropWhile isGoSpace)).dropWhile isGoSpace) =
    trimRight (l.dropWhile isGoSpace)
  rw [dropWhile_trimRight isGoSpace _ (dropWhile_idem isGoSpace l), trimRight_idem]

lemma mem_of_mem_dropWhile (p : Char → Bool) (x : Char) (l : List Char)
    (h : x ∈ l.dropWhile p) : x ∈ l := by
  induction l with
  | nil => simp at h
  | cons c rest ih =>
    rw [List.dropWhile_cons] at h
    by_cases hp : p c = true
    · rw [if_pos hp] at h
      exact List.mem_cons_of_mem _ (ih h)
    · rw [if_neg hp] at h
      exact h

lemma mem_of_mem_trimRight (x : Char) (l : List Char) (h : x ∈ trimRight l) :
    x ∈ l := by
  induction l with
  | nil => simp [trimRight] at h
  | cons c rest ih =>
    by_cases hb : (decide (trimRight rest = []) && isGoSpace c) = true
    · simp only [trimRight] at h
      rw [if_pos hb] at h
      simp at h
    · simp only [trimRight] at h
      rw [if_neg hb] at h
      rcases List.mem_cons.mp h with rfl | hmem
      · exact List.mem_cons_self _ _
      · exact List.mem_cons_of_mem _ (ih hmem)

lemma mem_of_mem_trimSpace (x : Char) (l : List Char) (h : x ∈ trimSpace l) :
    x ∈ l :=
  mem_of_mem_dropWhile isGoSpace x l (mem_of_mem_trimRight x _ h)

/-- Every part produced by splitting on newlines is newline-free. -/
lemma splitLines_no_newline (r : List Char) : ∀ l ∈ splitLines r, '\n' ∉ l := by
  induction r with
  | nil =>
    intro l hl
    simp only [splitLines, List.mem_singleton] at hl
    subst hl
    simp
  | cons c rest ih =>
    intro l hl
    by_cases hc : c = '\n'
    · subst hc
      simp only [splitLines, if_pos rfl] at hl
      rcases List.mem_cons.mp hl with rfl | h
      · simp
      · exact ih l h
    · simp only [splitLines, if_neg hc] at hl
      rcases hsl : splitLines rest with _ | ⟨l', ls⟩
      · rw [hsl] at hl
        simp only [List.mem_singleton] at hl
        subst hl
        intro hmem
        rcases List.mem_cons.mp hmem with heq | hmem'
        · exact hc heq.symm
        · simp at hmem'
      · rw [hsl] at hl
        rcases List.mem_cons.mp hl with rfl | h
        · intro hmem
          rcases List.mem_cons.mp hmem with heq | hmem'
          · exact hc heq.symm
          · exact ih l' (by rw [hsl]; exact List.mem_cons_self _ _) hmem'
        · exact ih l (by rw [hsl]; exact List.mem_cons_of_mem _ h)

lemma splitLines_ne_nil (r : List Char) : splitLines r ≠ [] := by
  cases r with
  | nil => simp [splitLines]
  | cons c rest =>
    by_cases hc : c = '\n'
    · simp [splitLines, hc]
    · simp only [splitLines, if_neg hc]
      rcases hsl : splitLines rest with _ | ⟨l, ls⟩ <;> simp

/-- A newline-free string splits into just itself. -/
lemma splitLines_single (x : List Char) (h : '\n' ∉ x) : splitLines x = [x] := by
  induction x with
  | nil => rfl
  | cons c rest ih =>
    have hc : ¬ c = '\n' := fun e => h (e ▸ List.mem_cons_self _ _)
    have hrest : '\n' ∉ rest := fun e => h (List.mem_cons_of_mem _ e)
    simp only [splitLines, if_neg hc, ih hrest]

lemma splitLines_append_newline (x t : List Char) (h : '\n' ∉ x) :
    splitLines (x ++ '\n' :: t) = x :: splitLines t := by
  induction x with
  | nil => simp [splitLines]
  | cons c x' ih =>
    have hc : ¬ c = '\n' := fun e => h (e ▸ List.mem_cons_self _ _)
    have hrest : '\n' ∉ x' := fun e => h (List.mem_cons_of_mem _ e)
    rw [List.cons_append]
    simp only [splitLines, if_neg hc, ih hrest]

/-- Splitting undoes joining for non-empty lists of newline-free lines. -/
lemma splitLines_joinLines (xs : List (List Char))
    (h : ∀ x ∈ xs, '\n' ∉ x) (hne : xs ≠ []) :
    splitLines (joinLines xs) = xs := by
  induction xs with
  | nil => exact absurd rfl hne
  | cons x xs' ih =>
    rcases xs' with _ | ⟨y, ys⟩
    · exact splitLines_single x (h x (List.mem_cons_self _ _))
    · have hx : '\n' ∉ x := h x (List.mem_cons_self _ _)
      have h' : ∀ z ∈ y :: ys, '\n' ∉ z := fun z hz => h z (List.mem_cons_of_mem _ hz)
      show splitLines (x ++ '\n' :: joinLines (y :: ys)) = x :: y :: ys
      rw [splitLines_append_newline _ _ hx, ih h' (by simp)]

lemma trimSpace_nil : trimSpace [] = [] := rfl

/-- The primary pass only ever looks at trimmed lines, so pre-trimming
each line changes nothing. -/
lemma primaryLoop_trim_lines (ls : List (List Char)) (cur : Option Suggestion) :
    primaryLoop (ls.map trimSpace) cur = primaryLoop ls cur := by
  induction ls generalizing cur with
  | nil => rfl
  | cons l rest ih =>
    show primaryLoop (trimSpace l :: rest.map trimSpace) cur = _
    by_cases ht : trimSpace l = []
    · simp [primaryLoop, trimSpace_idem, trimSpace_nil, ht, ih]
    · rcases hm : primaryMatch (trimSpace l) with _ | ⟨d, sv, tt⟩
      · rcases cur with _ | c <;>
          simp [primaryLoop, trimSpace_idem, ht, hm, ih]
      · simp [primaryLoop, trimSpace_idem, ht, hm, ih]

/-- The fallback pass only ever looks at trimmed lines, so pre-trimming
each line changes nothing. -/
lemma fallbackLoop_trim_lines (ls : List (List Char)) (n : Nat) :
    fallbackLoop (ls.map trimSpace) n = fallbackLoop ls n := by
  induction ls generalizing n with
  | nil => rfl
  | cons l rest ih =>
    show fallbackLoop (trimSpace l :: rest.map trimSpace) n = _
    by_cases h1 : trimSpace l = []
    · simp [fallbackLoop, trimSpace_idem, trimSpace_nil, h1, ih]
    · by_cases h2 : removeSevTags (stripLeadingNum (trimSpace l)) = []
      · simp [fallbackLoop, trimSpace_idem, h1, h2, ih]
      · simp [fallbackLoop, trimSpace_idem, h1, h2, ih]

/-- Parsing is invariant under trimming every input line. -/
lemma parseSuggestions_trim_invariant (r : List Char) :
    parseSuggestions (joinLines ((splitLines r).map trimSpace)) =
      parseSuggestions r := by
  have h1 : ∀ x ∈ (splitLines r).map trimSpace, '\n' ∉ x := by
    intro x hx
    rcases List.mem_map.mp hx with ⟨l, hl, rfl⟩
    intro hmem
    exact splitLines_no_newline r l hl (mem_of_mem_trimSpace _ _ hmem)
  have h2 : (splitLines r).map trimSpace ≠ [] := by
    intro h
    exact splitLines_ne_nil r (List.map_eq_nil_iff.mp h)
  unfold parseSuggestions
  rw [splitLines_joinLines _ h1 h2, primaryLoop_trim_lines, fallbackLoop_trim_lines]

/-- Joining a trimmed description and a trimmed non-empty continuation
line with a single space yields a string that is still trimmed. -/
lemma descAppend_trimmed (d w : List Char) (hd : trimSpace d = d)
    (hw : trimSpace w = w) (hwne : w ≠ []) :
    trimSpace (descAppend d w) = descAppend d w := by
  unfold descAppend
  by_cases hdn : d = []
  · simp [hdn, hw]
  · rw [if_neg hdn]
    obtain ⟨hd1, _⟩ := trim_eq_self_parts d hd
    obtain ⟨_, hw2⟩ := trim_eq_self_parts w hw
    calc trimSpace (d ++ ' ' :: w)
        = trimRight (d ++ ' ' :: w) := by
          show trimRight ((d ++ ' ' :: w).dropWhile isGoSpace) = _
          rw [dropWhile_append_self isGoSpace d (' ' :: w) hd1 hdn]
      _ = trimRight ((d ++ [' ']) ++ w) := by simp
      _ = (d ++ [' ']) ++ w := trimRight_append_self _ _ hw2 hwne
      _ = d ++ ' ' :: w := by simp

/-- Every suggestion the primary pass emits has a trimmed title and a
trimmed description, provided the in-progress one does. -/
lemma primaryLoop_trimmed (ls : List (List Char)) (cur : Option Suggestion)
    (hcur : ∀ c, cur = some c →
      trimSpace c.title = c.title ∧ trimSpace c.description = c.description) :
    ∀ s ∈ primaryLoop ls cur,
      trimSpace s.title = s.title ∧ trimSpace s.description = s.description := by
  induction ls generalizing cur with
  | nil =>
    intro s hs
    rcases cur with _ | c
    · simp [primaryLoop] at hs
    · simp only [primaryLoop, List.mem_singleton] at hs
      subst hs
      exact hcur _ rfl
  | cons l rest ih =>
    intro s hs
    by_cases ht : trimSpace l = []
    · simp only [primaryLoop, if_pos ht] at hs
      exact ih cur hcur s hs
    · rcases hm : primaryMatch (trimSpace l) with _ | ⟨d, sv, tt⟩
      · simp only [primaryLoop, if_neg ht, hm] at hs
        rcases cur with _ | c
        · exact ih none (by simp) s hs
        · refine ih _ ?_ s hs
          intro c' hc'
          injection hc' with h'
          rw [← h']
          exact ⟨(hcur c rfl).1,
            descAppend_trimmed _ _ (hcur c rfl).2 (trimSpace_idem l) ht⟩
      · simp only [primaryLoop, if_neg ht, hm] at hs
        rcases List.mem_append.mp hs with hfl | hrec
        · rcases cur with _ | c
          · simp at hfl
          · simp only [List.mem_singleton] at hfl
            subst hfl
            exact hcur _ rfl
        · refine ih _ ?_ s hrec
          intro c' hc'
          injection hc' with h'
          rw [← h']
          exact ⟨trimSpace_idem _, rfl⟩

/-- Fallback suggestions always carry an empty description. -/
lemma fallbackLoop_description (ls : List (List Char)) (n : Nat) (s : Suggestion)
    (hs : s ∈ fallbackLoop ls n) : s.description = [] := by
  induction ls generalizing n with
  | nil => simp [fallbackLoop] at hs
  | cons l rest ih =>
    by_cases h1 : trimSpace l = []
    · rw [fallbackLoop, if_pos h1] at hs
      exact ih _ hs
    · by_cases h2 : removeSevTags (stripLeadingNum (trimSpace l)) = []
      · rw [fallbackLoop, if_neg h1] at hs
        simp only [h2, if_pos rfl] at hs
        exact ih _ hs
      · rw [fallbackLoop, if_neg h1] at hs
        simp only [if_neg h2] at hs
        rcases List.mem_cons.mp hs with rfl | hmem
        · rfl
        · exact ih _ hmem

/-- C10 (amended): every line is trimmed before pattern matching, so
parsing is invariant under trimming each input line (in particular,
leading indentation never prevents a line from starting a Suggestion in
primary mode); no description ever begins or ends with whitespace; and
in primary mode no title does either.  (In fallback mode a title can
retain whitespace next to a removed severity tag, see the
counterexample.) -/
theorem parseSuggestions_trim_behavior (r : List Char) :
    parseSuggestions (joinLines ((splitLines r).map trimSpace)) =
      parseSuggestions r ∧
    (∀ s ∈ parseSuggestions r, trimSpace s.description = s.description) ∧
    (primaryLoop (splitLines r) none ≠ [] →
      ∀ s ∈ parseSuggestions r,
        trimSpace s.title = s.title ∧ trimSpace s.description = s.description) := by
  refine ⟨parseSuggestions_trim_invariant r, ?_, ?_⟩
  · intro s hs
    unfold parseSuggestions at hs
    by_cases hp : primaryLoop (splitLines r) none = []
    · rw [if_pos hp] at hs
      rw [fallbackLoop_description _ _ _ hs]
      rfl
    · rw [if_neg hp] at hs
      exact (primaryLoop_trimmed _ none (by simp) s hs).2
  · intro hp s hs
    unfold parseSuggestions at hs
    rw [if_neg hp] at hs
    exact primaryLoop_trimmed _ none (by simp) s hs

/-- Witness for `parseSuggestions_trim_behavior`: the primary-mode parse
of "1. [HIGH] x" yields the suggestion with title "x", whose title and
description are trimmed. -/
theorem parseSuggestions_trim_behavior_witness :
    trimSpace (['x'] : List Char) = ['x'] ∧ trimSpace ([] : List Char) = [] :=
  (parseSuggestions_trim_behavior ("1. [HIGH] x".toList)).2.2 (by decide)
    ⟨"HIGH".toList, ['x'], [], 1⟩ (by decide)
